import Mathlib

/-!
Verification of the ain-blockchain consensus core.

This file shallowly embeds the parts of the source relevant to the frozen
claims: `Consensus` (src/consensus/index.js), the node's finalization path
(src/node/index.js) and the peer message dispatch (`P2pServer`).

JavaScript strings are modelled as `List Char` (`JStr`), JS numbers that hold
block numbers / epochs / timestamps as `Int`, and stake balances (which enter
real-valued arithmetic through the PRNG draw of `selectProposer`) as `ℚ`.
Functions of the repository that are not under src/ (the `Blockchain`,
`BlockPool`, `DB` backup and tx-pool helpers) are modelled from the spec and
marked as such in their doc comments.
-/

namespace Ain

/-- JS strings, as lists of UTF-16-ish code points. -/
abbrev JStr := List Char

/-- JS `<` on strings: lexicographic comparison of code units. -/
def strLtb : JStr → JStr → Bool
  | [], [] => false
  | [], _ :: _ => true
  | _ :: _, [] => false
  | a :: as, b :: bs => if a < b then true else if b < a then false else strLtb as bs

/-- Insert into a `strLtb`-sorted list of strings. -/
def insertSortedStr (x : JStr) : List JStr → List JStr
  | [] => [x]
  | y :: ys => if strLtb y x then y :: insertSortedStr x ys else x :: y :: ys

/-- JS `Array.prototype.sort()` on a list of strings (default string order). -/
def sortStrings : List JStr → List JStr
  | [] => []
  | x :: xs => insertSortedStr x (sortStrings xs)

/-- JS number-to-string coercion (`'' + n`) for integral numbers. -/
def intToJStr (n : Int) : JStr := (toString n).toList

/-! ## Transactions (src/consensus/index.js `isValidConsensusTx`, votes) -/

/-- `WriteDbOperations` of common/constants. -/
inductive WriteDbOp where
  | SET_VALUE
  | SET_RULE
  | SET_FUNCTION
  | SET_OWNER
  | SET
  deriving DecidableEq, Repr

/-- One element of a SET operation's `op_list`. -/
structure OpListItem where
  type : WriteDbOp
  ref : JStr
  deriving DecidableEq, Repr

/-- A transaction operation: `type`, `ref` (for single ops) and
`op_list` (present for SET ops; `none` models a JS `undefined` field). -/
structure TxOperation where
  type : WriteDbOp
  ref : JStr
  op_list : Option (List OpListItem)
  deriving DecidableEq, Repr

/-- A transaction body; `operation` is `none` when the JS field is falsy. -/
structure TxBody where
  operation : Option TxOperation
  deriving DecidableEq, Repr

/-- A signed transaction: `{tx_body, address, hash}`. -/
structure Tx where
  tx_body : TxBody
  address : JStr
  hash : JStr
  deriving DecidableEq, Repr

/-- `ChainUtil.formatPath([PredefinedDbPaths.CONSENSUS, PredefinedDbPaths.NUMBER])`,
the `consensusTxPrefix` of `isValidConsensusTx`. -/
def consensusTxPathStart : JStr := "/consensus/number".toList

/-- src/consensus/index.js `Consensus.isValidConsensusTx` (lines 1221-1239).
The `opList.forEach` of the source only returns from the forEach callback,
so a SET operation is accepted as soon as `op_list` has exactly 2 elements. -/
def isValidConsensusTx (tx : Tx) : Bool :=
  match tx.tx_body.operation with
  | none => false
  | some op =>
    match op.type with
    | WriteDbOp.SET_VALUE => List.isPrefixOf consensusTxPathStart op.ref
    | WriteDbOp.SET =>
      match op.op_list with
      | none => false
      | some opList => opList.length == 2
    | _ => false

/-! ## Blocks -/

/-- The block fields the consensus engine reads. -/
structure Block where
  number : Int
  epoch : Int
  hash : JStr
  last_hash : JStr
  last_votes_hash : JStr
  proposer : JStr
  validators : List (JStr × ℚ)
  deriving DecidableEq, Repr

/-! ## Proposer selection (src/consensus/index.js `selectProposer`, lines 1198-1219) -/

/-- The cumulative-stake scan of `selectProposer`: walk the sorted address
list, add each validator's stake to `cumulative` and return the first address
whose cumulative stake exceeds `targetValue`. -/
def selectProposerGo (validators : List (JStr × ℚ)) (targetValue : ℚ) :
    List JStr → ℚ → Option JStr
  | [], _ => none
  | a :: rest, cumulative =>
    let c := cumulative + ((List.lookup a validators).getD 0)
    if targetValue < c then some a else selectProposerGo validators targetValue rest c

/-- src/consensus/index.js `Consensus.selectProposer`. The seeded PRNG
(`seedrandom(seed)()`, a deterministic value in `[0,1)` from the seed) is
abstracted as the parameter `rng`. -/
def selectProposer (rng : JStr → ℚ) (seed : JStr) (validators : List (JStr × ℚ)) :
    Option JStr :=
  let alphabeticallyOrderedValidators := sortStrings (validators.map Prod.fst)
  let totalAtStake := (validators.map Prod.snd).foldl (· + ·) 0
  let targetValue := rng seed * totalAtStake
  selectProposerGo validators targetValue alphabeticallyOrderedValidators 0

/-- The seed of `updateProposer` (src/consensus/index.js line 180):
`'' + lastNotarizedBlock.last_votes_hash + this.state.epoch`. -/
def proposerSeed (lastVotesHash : JStr) (epoch : Int) : JStr :=
  lastVotesHash ++ intToJStr epoch

/-- src/consensus/index.js `updateProposer` (lines 168-183): the proposer for
an epoch extending the last notarized block. -/
def updateProposer (rng : JStr → ℚ) (lastNotarizedBlock : Block) (epoch : Int)
    (validators : List (JStr × ℚ)) : Option JStr :=
  selectProposer rng (proposerSeed lastNotarizedBlock.last_votes_hash epoch) validators

/-- Cumulative stake sums in sorted order, written as the spec words it:
each address paired with the running sum of stakes up to and including it. -/
def cumulativeStakes (validators : List (JStr × ℚ)) :
    List JStr → ℚ → List (JStr × ℚ)
  | [], _ => []
  | a :: rest, acc =>
    let acc' := acc + ((List.lookup a validators).getD 0)
    (a, acc') :: cumulativeStakes validators rest acc'

/-- Proposer selection as the spec words it: iterate validators in
lexicographically sorted address order, cumulatively summing stakes, and
return the first validator whose cumulative stake exceeds the draw. -/
def selectProposerSpec (draw : ℚ) (validators : List (JStr × ℚ)) : Option JStr :=
  ((cumulativeStakes validators (sortStrings (validators.map Prod.fst)) 0).find?
      (fun p => decide (draw < p.2))).map Prod.fst

/-- Total stake (`Object.values(validators).reduce((a, b) => a + b, 0)`). -/
def totalStake (validators : List (JStr × ℚ)) : ℚ :=
  (validators.map Prod.snd).foldl (· + ·) 0

/-! ## Epoch clock (src/consensus/index.js lines 107-156) -/

/-- `startEpochTransition` (lines 107-115): the initial epoch,
`Math.ceil((Date.now() - this.startingTime) / EPOCH_MS)`.
`this.timeAdjustment` is 0 at this point and is not subtracted. -/
def startEpochTransitionEpoch (now startingTime : Int) (epochMs : ℚ) : Int :=
  ⌈((now - startingTime : Int) : ℚ) / epochMs⌉

/-- The epoch computed by each `setEpochTransition` tick (lines 128-149):
`currentTime = Date.now(); currentTime -= this.timeAdjustment;`
`absEpoch = Math.floor((currentTime - this.startingTime) / EPOCH_MS)`;
`this.state.epoch = absEpoch` unconditionally (the previous value
`stateEpoch` is only read for logging). -/
def setEpochTransitionTick (_stateEpoch : Int) (now timeAdjustment startingTime : Int)
    (epochMs : ℚ) : Int :=
  let currentTime := now - timeAdjustment
  let absEpoch : Int := ⌊((currentTime - startingTime : Int) : ℚ) / epochMs⌋
  absEpoch

/-- The epoch formula as the claim words it:
`floor((now − genesis_timestamp − time_adjustment) / EPOCH_MS)`. -/
def epochClaimFloor (now genesisTimestamp timeAdjustment : Int) (epochMs : ℚ) : Int :=
  ⌊((now - genesisTimestamp - timeAdjustment : Int) : ℚ) / epochMs⌋

/-! ## Finalization (src/consensus/index.js `tryFinalize` lines 797-825,
src/node/index.js `addNewBlock` lines 360-367) -/

/-- `Blockchain.lastBlockNumber()`. Modelled from the spec: the number of the
last block of the append-only finalized log (`-1` when it is empty). -/
def lastBlockNumber (chain : List Block) : Int :=
  match chain.getLast? with
  | some b => b.number
  | none => -1

/-- Modelled from the spec: `Blockchain.addNewBlockToChain` lives in
blockchain/index.js, which is not under src/; §4.4 describes the blockchain
as an append-only log of finalized blocks whose links satisfy
`chain[N].last_hash == chain[N-1].hash` with monotonically assigned numbers.
The append succeeds iff the block extends the current tip. -/
def addNewBlockToChain (chain : List Block) (b : Block) : Option (List Block) :=
  match chain.getLast? with
  | none => if b.number = 0 then some (chain ++ [b]) else none
  | some last =>
    if b.number = last.number + 1 ∧ b.last_hash = last.hash then some (chain ++ [b])
    else none

/-- The node-side state touched by finalization: the finalized chain
(`node.bc.chain`), the pool's block-hash → state-version map
(`blockPool.hashToDb`, state versions abstracted as `Nat` identities) and the
finalized state version (`stateManager`'s final version). -/
structure NodeState where
  chain : List Block
  hashToDbVer : JStr → Option Nat
  finalVersion : Option Nat

/-- The loop body of `tryFinalize` (lines 806-822): skip blocks whose number
is at most the last finalized number; otherwise `node.addNewBlock` appends
the block and `cloneAndFinalizeVersion` promotes its pool state version to
the finalized version. A failing `addNewBlock` logs and returns (halting this
round); a missing pool db would make the JS
`this.blockPool.hashToDb.get(hash).stateVersion` throw, modelled as `none`.
The loop also returns the `cloneAndFinalizeVersion(version, blockNumber)`
calls it made, as `(blockNumber, version)` pairs, in order. -/
def tryFinalizeLoop (st : NodeState) :
    List Block → Option (NodeState × List (Int × Nat))
  | [] => some (st, [])
  | blockToFinalize :: rest =>
    if blockToFinalize.number ≤ lastBlockNumber st.chain then
      tryFinalizeLoop st rest
    else
      match addNewBlockToChain st.chain blockToFinalize with
      | some chain' =>
        match st.hashToDbVer blockToFinalize.hash with
        | some versionToFinalize =>
          match tryFinalizeLoop
              { chain := chain', hashToDbVer := st.hashToDbVer,
                finalVersion := some versionToFinalize } rest with
          | none => none
          | some (st', promotions) =>
            some (st', (blockToFinalize.number, versionToFinalize) :: promotions)
        | none => none
      | none => some (st, [])

/-- src/consensus/index.js `tryFinalize` (lines 797-825): when the pool's
finalizable chain is non-empty, iterate over all of it except its last block
(`i < finalizableChain.length - 1`). The pool clean-up that follows does not
touch the state modelled here. -/
def tryFinalize (st : NodeState) (finalizableChain : List Block) :
    Option (NodeState × List (Int × Nat)) :=
  if finalizableChain.isEmpty then some (st, [])
  else tryFinalizeLoop st finalizableChain.dropLast

/-- The blocks of `l` consist of consecutive numbers and hash links
(`b.number = a.number + 1` and `b.last_hash = a.hash` for adjacent `a`, `b`),
as `BlockPool.getFinalizableChain` returns per §4.4 of the spec. -/
def linkedChain (l : List Block) : Prop :=
  List.Chain' (fun a b => b.number = a.number + 1 ∧ b.last_hash = a.hash) l

/-- Block numbers strictly increase along the finalized chain. -/
def strictNumbers (c : List Block) : Prop :=
  List.Pairwise (fun a b => a.number < b.number) c

/-! ## Voting (src/consensus/index.js `tryVote` lines 759-773, `vote` 775-793,
`votedForEpoch` 994-1001) -/

/-- A pool entry (`BlockInfo`): `votes` is `none` when the JS field is
absent. Only the fields `votedForEpoch` reads are modelled. -/
structure BlockInfo where
  votes : Option (List Tx)

/-- The block-pool indexes `votedForEpoch` reads: `epochToBlock` and
`hashToBlockInfo`, as JS object lookups. -/
structure BlockPoolState where
  hashToBlockInfo : JStr → Option BlockInfo
  epochToBlock : Int → Option JStr

/-- src/consensus/index.js `votedForEpoch` (lines 994-1001): a vote by this
node's address is recorded for the block indexed at the epoch. -/
def votedForEpoch (pool : BlockPoolState) (myAddr : JStr) (epoch : Int) : Bool :=
  match pool.epochToBlock epoch with
  | none => false
  | some blockHash =>
    match pool.hashToBlockInfo blockHash with
    | none => false
    | some blockInfo =>
      match blockInfo.votes with
      | none => false
      | some votes => (votes.filter (fun v => v.address = myAddr)).length > 0

/-- `PathUtil.getConsensusVotePath(block.number, myAddr)`:
`/consensus/number/<N>/<addr>`. -/
def consensusVotePath (number : Int) (addr : JStr) : JStr :=
  consensusTxPathStart ++ ['/'] ++ intToJStr number ++ ['/'] ++ addr

/-- The vote transaction built by `vote` (lines 781-789): a SET_VALUE at
`/consensus/number/<N>/<my_addr>` signed by this node (the created
transaction's recovered address is `myAddr`; its hash is opaque here). -/
def mkVoteTx (myAddr : JStr) (block : Block) : Tx :=
  { tx_body :=
      { operation := some
          { type := WriteDbOp.SET_VALUE,
            ref := consensusVotePath block.number myAddr,
            op_list := none } },
    address := myAddr,
    hash := block.hash ++ myAddr }

/-- src/consensus/index.js `vote` (lines 775-793): no vote is produced when
`block.validators[myAddr]` is falsy (absent or zero stake). -/
def vote (myAddr : JStr) (block : Block) : Option Tx :=
  match List.lookup myAddr block.validators with
  | none => none
  | some myStake => if myStake = 0 then none else some (mkVoteTx myAddr block)

/-- src/consensus/index.js `tryVote` (lines 759-773): return without voting
when `votedForEpoch(proposalBlock.epoch)` already holds, else `vote`. -/
def tryVote (pool : BlockPoolState) (myAddr : JStr) (proposalBlock : Block) : Option Tx :=
  if votedForEpoch pool myAddr proposalBlock.epoch then none
  else vote myAddr proposalBlock

/-- Modelled from the spec: `BlockPool.addSeenVote` lives in
consensus/block-pool.js, which is not under src/; §4.4 describes
`by_epoch: epoch → block_hash` as "the unique block this node has voted for
at each epoch" and `add_seen_vote` as appending the vote to the owning
`BlockInfo`. Recording this node's own vote for `block` sets
`epochToBlock[block.epoch]` and appends the vote to the block's info. -/
def addSeenVoteOwn (pool : BlockPoolState) (block : Block) (voteTx : Tx) :
    BlockPoolState :=
  { hashToBlockInfo := fun h =>
      if h = block.hash then
        match pool.hashToBlockInfo block.hash with
        | some info => some { votes := some ((info.votes.getD []) ++ [voteTx]) }
        | none => some { votes := some [voteTx] }
      else pool.hashToBlockInfo h,
    epochToBlock := fun e =>
      if e = block.epoch then some block.hash else pool.epochToBlock e }

/-- A run of the engine's vote attempts: each proposal block is offered to
`tryVote`; an emitted vote goes through `handleConsensusMessage` →
`checkVoteTx` → `addSeenVote` and is recorded in the pool. Returns the final
pool and the emitted votes tagged with the epoch voted at. -/
def voteTrace (myAddr : JStr) (pool : BlockPoolState) :
    List Block → BlockPoolState × List (Int × Tx)
  | [] => (pool, [])
  | b :: bs =>
    match tryVote pool myAddr b with
    | none => voteTrace myAddr pool bs
    | some v =>
      let out := voteTrace myAddr (addSeenVoteOwn pool b v) bs
      (out.1, (b.epoch, v) :: out.2)

/-! ## Proposal verification (src/consensus/index.js `checkProposal`
lines 455-691) -/

/-- The out-of-scope results `checkProposal` consults, resolved for one call.
Each field abstracts a call into a collaborator whose internals the claim
does not constrain; the control flow over them is translated verbatim. -/
structure ProposalCheckCtx where
  /-- `Block.parse(proposalBlock)` succeeded (lines 457-461). -/
  parseOk : Bool
  /-- `this.blockPool.hasSeenBlock(proposalBlock)` (line 466). -/
  hasSeenBlock : Bool
  /-- `proposalTx.address` (line 470). -/
  signerAddr : JStr
  /-- `BlockPool.getBlockHashFromTx(proposalTx)` (line 474). -/
  txBlockHash : JStr
  /-- The `LIGHTWEIGHT` flag (lines 480, 670). -/
  lightweight : Bool
  /-- `Block.validateProposedBlock(proposalBlock)` (line 481). -/
  staticOk : Bool
  /-- `this.node.bc.lastBlockNumber()` (line 486). -/
  lastBlockNumber : Int
  /-- The resolved predecessor: genesis for `number == 1`, else
  `this.blockPool.hashToBlockInfo[last_hash].block` (lines 498-506);
  `none` when it is missing (line 501, `return;`). -/
  prevBlock : Option Block
  /-- `MIN_NUM_VALIDATORS` (line 509). -/
  minNumValidators : Nat
  /-- `prevBlockInfo.notarized` on entry (line 514). -/
  prevNotarized : Bool
  /-- The lines 514-581 attempt to notarize the predecessor from the
  proposal's `last_votes` ended with `prevBlockInfo.notarized` true. -/
  notarizeFromLastVotesOk : Bool
  /-- The seeded PRNG draw, as in `selectProposer`. -/
  rng : JStr → ℚ
  /-- The replay of `last_votes` and `transactions` on a temp version forked
  from the predecessor's state, the gas totals, the proposal-tx execution and
  the state-proof-hash comparison all passed (lines 596-678). -/
  execChecksOk : Bool
  /-- `this.blockPool.addSeenBlock(proposalBlock, proposalTx)` (line 679). -/
  addSeenBlockOk : Bool
  /-- `this.blockPool.longestNotarizedChainTips.includes(last_hash)`
  (line 684). -/
  extendsTipOk : Bool

/-- src/consensus/index.js `checkProposal` (lines 455-691). The source is a
chain of early `return false` guards (with the falsy `return;` of line 504
and the `return null` of lines 552, 616, 658 also observed as false by the
caller, line 259); the chain is rendered as the equivalent short-circuit
conjunction of the negated guards, one conjunct per return, in source
order. -/
def checkProposal (ctx : ProposalCheckCtx) (block : Block) : Bool :=
  ctx.parseOk
  && ! ctx.hasSeenBlock
  && decide (ctx.signerAddr = block.proposer)
  && decide (ctx.txBlockHash = block.hash)
  && (ctx.lightweight || ctx.staticOk)
  && decide (ctx.lastBlockNumber < block.number)
  && (match ctx.prevBlock with
      | none => false
      | some prevBlock =>
        decide (ctx.minNumValidators ≤ block.validators.length)
        && (decide (block.number = 1) || ctx.prevNotarized
            || ctx.notarizeFromLastVotesOk)
        && decide (prevBlock.epoch < block.epoch)
        && decide (selectProposer ctx.rng
              (proposerSeed prevBlock.last_votes_hash block.epoch) block.validators
            = some block.proposer)
        && ctx.execChecksOk
        && ctx.addSeenBlockOk
        && ctx.extendsTipOk)

/-- A parent chain each of whose links was accepted by `checkProposal`
(`ctxOf prev b` is the context the engine resolved when `b` arrived, with
`prev` as the resolved predecessor). -/
def acceptedChain (ctxOf : Block → Block → ProposalCheckCtx) (l : List Block) : Prop :=
  List.Chain'
    (fun prev b =>
      (ctxOf prev b).prevBlock = some prev ∧ checkProposal (ctxOf prev b) b = true) l

/-! ## Consensus message handling (src/consensus/index.js
`handleConsensusMessage` lines 211-273) -/

/-- The value of a consensus message: a proposal (block + proposal tx, either
possibly missing) or a vote transaction. -/
inductive ConsensusMsgValue where
  | propose (proposalBlock : Option Block) (proposalTx : Option Tx)
  | voteVal (tx : Tx)

/-- The engine-side context `handleConsensusMessage` consults. -/
structure ConsensusEnv where
  /-- `checkConsensusProtocolVersion(msg)` (line 214). -/
  versionOk : Bool
  /-- `this.status === ConsensusStatus.RUNNING` (line 219). -/
  running : Bool
  /-- `this.node.tp.transactionTracker[hash]` membership (lines 242, 265). -/
  inTracker : JStr → Bool
  /-- `this.getLastNotarizedBlock()` (line 236). -/
  lastNotarizedBlock : Block
  /-- `this.node.bc.lastBlock()` (line 255). -/
  lastFinalizedBlock : Block
  /-- `Object.values(this.server.client.outbound)` (line 254), as peer ids. -/
  outboundPeers : List JStr
  /-- `Consensus.isValidConsensusTx(proposalTx) && this.checkProposal(...)`
  (lines 259-260), resolved for the incoming proposal. -/
  proposalAccepted : Bool
  /-- `Consensus.isValidConsensusTx(value) && this.checkVoteTx(value)`
  (line 269), resolved for the incoming vote. -/
  voteAccepted : Bool

/-- The externally visible effects of one `handleConsensusMessage` call. -/
structure HandleEffects where
  /-- `requestChainSegment(node.socket, this.node.bc.lastBlock())` calls,
  one per outbound peer, carrying the last finalized block (lines 254-256). -/
  segmentRequests : List (JStr × Block)
  /-- `this.checkProposal(proposalBlock, proposalTx)` was reached. -/
  checkedProposal : Bool
  /-- `this.tryVote(proposalBlock)` was invoked on this block. -/
  votedOn : Option Block
  /-- `this.server.client.broadcastConsensusMessage(msg)` was called. -/
  broadcasted : Bool
  deriving Repr

/-- No effect: the message was discarded before acting. -/
def noEffects : HandleEffects :=
  { segmentRequests := [], checkedProposal := false, votedOn := none,
    broadcasted := false }

/-- src/consensus/index.js `handleConsensusMessage` (lines 211-273). -/
def handleConsensusMessage (env : ConsensusEnv) (msg : ConsensusMsgValue) :
    HandleEffects :=
  if ¬ env.versionOk then noEffects
  else if ¬ env.running then noEffects
  else
    match msg with
    | ConsensusMsgValue.propose proposalBlock proposalTx =>
      match proposalBlock, proposalTx with
      | some proposalBlock, some proposalTx =>
        if env.inTracker proposalTx.hash then noEffects
        else if env.lastNotarizedBlock.number + 1 < proposalBlock.number then
          { segmentRequests :=
              env.outboundPeers.map (fun peer => (peer, env.lastFinalizedBlock)),
            checkedProposal := false, votedOn := none, broadcasted := false }
        else if env.proposalAccepted then
          { segmentRequests := [], checkedProposal := true,
            votedOn := some proposalBlock, broadcasted := true }
        else
          { segmentRequests := [], checkedProposal := true, votedOn := none,
            broadcasted := false }
      | _, _ => noEffects
    | ConsensusMsgValue.voteVal tx =>
      if env.inTracker tx.hash then noEffects
      else if env.voteAccepted then
        { segmentRequests := [], checkedProposal := false, votedOn := none,
          broadcasted := true }
      else noEffects

/-! ## Per-transaction atomicity during proposal construction
(src/consensus/index.js `executeOrRollbackTransactionForBlock` lines 287-310,
`createProposal` lines 360-377) -/

/-- A database with its backup slot. `σ` is the abstract state-tree content. -/
structure BackedDb (σ : Type) where
  state : σ
  backup : Option σ

/-- Modelled from the spec: `DB.backupDb` lives in db/index.js, which is not
under src/; §4.2 has callers needing per-tx atomicity call `backup()`
explicitly, so it snapshots the current state. -/
def backupDb {σ : Type} (db : BackedDb σ) : BackedDb σ :=
  { state := db.state, backup := some db.state }

/-- Modelled from the spec: `DB.restoreDb` — restore the snapshotted state;
fails when there is no backup. -/
def restoreDb {σ : Type} (db : BackedDb σ) : Option (BackedDb σ) :=
  match db.backup with
  | none => none
  | some s => some { state := s, backup := db.backup }

/-- src/consensus/index.js `executeOrRollbackTransactionForBlock`
(lines 287-310). `exec` abstracts `db.executeTransaction`: `some s'` is a
successful execution mutating the state, `none` a failed one leaving the
state unchanged (§4.2). `none` overall models the JS `return null` on
backup/restore failure. -/
def executeOrRollbackTransactionForBlock {σ : Type} (exec : σ → Tx → Option σ)
    (db : BackedDb σ) (tx : Tx) (validTransactions invalidTransactions : List Tx) :
    Option (BackedDb σ × List Tx × List Tx) :=
  let db := backupDb db
  match exec db.state tx with
  | some s' =>
    some ({ state := s', backup := db.backup }, validTransactions ++ [tx],
      invalidTransactions)
  | none =>
    match restoreDb db with
    | none => none
    | some db' => some (db', validTransactions, invalidTransactions ++ [tx])

/-- The transaction drain of `createProposal` (lines 365-372): run
`executeOrRollbackTransactionForBlock` over the pool's transactions,
accumulating the valid and invalid lists. -/
def drainTransactions {σ : Type} (exec : σ → Tx → Option σ) (db : BackedDb σ)
    (validTransactions invalidTransactions : List Tx) :
    List Tx → Option (BackedDb σ × List Tx × List Tx)
  | [] => some (db, validTransactions, invalidTransactions)
  | tx :: rest =>
    match executeOrRollbackTransactionForBlock exec db tx validTransactions
        invalidTransactions with
    | none => none
    | some (db', valid', invalid') => drainTransactions exec db' valid' invalid' rest

/-- The drain as the spec words it: each transaction executed under per-tx
backup/restore; a failing transaction is rolled back alone and discarded,
a succeeding one keeps its effects. Returns the final state and the
success/failure partition. -/
def drainSpec {σ : Type} (exec : σ → Tx → Option σ) (s : σ) :
    List Tx → σ × List Tx × List Tx
  | [] => (s, [], [])
  | tx :: rest =>
    match exec s tx with
    | some s' =>
      let out := drainSpec exec s' rest
      (out.1, tx :: out.2.1, out.2.2)
    | none =>
      let out := drainSpec exec s rest
      (out.1, out.2.1, tx :: out.2.2)

/-- Modelled from the spec: `TransactionPool.removeInvalidTxsFromPool` lives
in tx-pool/index.js, which is not under src/; §4.3's `remove_invalid(txs)`
drops the given transactions from the pool. -/
def removeInvalidTxsFromPool (pool invalidTransactions : List Tx) : List Tx :=
  pool.filter (fun t => ¬ t ∈ invalidTransactions)

/-! ## Peer message dispatch and data-protocol gating (src/unnamed/part_000,
`P2pServer.checkDataProtoVerForConsensus` lines 338-353,
`checkDataProtoVerForTransaction` lines 355-369,
`setPeerEventHandlers` lines 371-536) -/

/-- The `dataProtoVer` field of an inbound message, after parsing: absent,
not a valid semver, or a parsed version. `VersionUtil.toMajorVersion` and
`isValidDataProtoVer` live outside src/ and are modelled from the spec as
extracting the major component and accepting exactly the parsed versions. -/
inductive DataProtoVer where
  | absent
  | unparsable
  | ver (major minor patch : Nat)
  deriving DecidableEq, Repr

/-- src/unnamed/part_000 `checkDataProtoVerForConsensus` (lines 338-353):
`semver.gt(myMajor, msgMajor)` (receiver newer) only hits a TODO comment and
falls through; only `semver.lt(myMajor, msgMajor)` (message newer) returns
false. Major versions `X.0.0` compare by their major component. -/
def checkDataProtoVerForConsensus (myMajor msgMajor : Nat) : Bool :=
  if myMajor < msgMajor then false else true

/-- src/unnamed/part_000 `checkDataProtoVerForTransaction` (lines 355-369):
same shape as the consensus check. -/
def checkDataProtoVerForTransaction (myMajor msgMajor : Nat) : Bool :=
  if myMajor < msgMajor then false else true

/-- The kinds of inbound peer messages whose version gating the claim
concerns (`MessageTypes`). -/
inductive PeerMessageKind where
  | addressRequest
  | consensusMsg
  | transactionMsg (isBatch : Bool)
  | chainSegmentRequest
  deriving DecidableEq, Repr

/-- An inbound peer message as `setPeerEventHandlers` sees it:
its parsed `dataProtoVer`, the `checkTimestamp` result (p2p/util, outside
src/) and its kind. -/
structure PeerMessage where
  dataProtoVer : DataProtoVer
  timestampOk : Bool
  kind : PeerMessageKind
  deriving DecidableEq, Repr

/-- What `setPeerEventHandlers` did with an inbound message. -/
inductive RouteOutcome where
  /-- `closeSocketSafe` was called and the message was not processed
  (lines 378-383). -/
  | closedInvalidVer
  /-- Dropped by `checkTimestamp` (lines 384-388). -/
  | droppedStale
  /-- Silently dropped by a data-protocol version gate
  (lines 439-441, 461-463). -/
  | droppedVersionGate
  /-- Dropped as a duplicate of a tracked transaction (lines 451-454). -/
  | droppedDuplicate
  /-- Dropped because the node is not SERVING (lines 442-446, 455-459). -/
  | droppedNotServing
  /-- The corresponding handler ran (`handleConsensusMessage`,
  `executeAndBroadcastTransaction`, the handshake or segment response). -/
  | handlerInvoked
  deriving DecidableEq, Repr

/-- src/unnamed/part_000 `setPeerEventHandlers` (lines 371-536), restricted
to the version/timestamp gates and the dispatch of the four message kinds.
`myMajor` is `this.majorDataProtocolVersion`, `serving` is
`this.node.state === SERVING`, `trackerHasTx` the transaction-tracker lookup
for TRANSACTION messages. -/
def routePeerMessage (myMajor : Nat) (serving trackerHasTx : Bool)
    (msg : PeerMessage) : RouteOutcome :=
  match msg.dataProtoVer with
  | DataProtoVer.absent => RouteOutcome.closedInvalidVer
  | DataProtoVer.unparsable => RouteOutcome.closedInvalidVer
  | DataProtoVer.ver msgMajor _ _ =>
    if ¬ msg.timestampOk then RouteOutcome.droppedStale
    else
      match msg.kind with
      | PeerMessageKind.addressRequest => RouteOutcome.handlerInvoked
      | PeerMessageKind.consensusMsg =>
        if ¬ checkDataProtoVerForConsensus myMajor msgMajor then
          RouteOutcome.droppedVersionGate
        else if serving then RouteOutcome.handlerInvoked
        else RouteOutcome.droppedNotServing
      | PeerMessageKind.transactionMsg isBatch =>
        if trackerHasTx then RouteOutcome.droppedDuplicate
        else if ¬ serving then RouteOutcome.droppedNotServing
        else if isBatch ∧ ¬ checkDataProtoVerForTransaction myMajor msgMajor then
          RouteOutcome.droppedVersionGate
        else RouteOutcome.handlerInvoked
      | PeerMessageKind.chainSegmentRequest => RouteOutcome.handlerInvoked

end Ain

namespace Ain

theorem selectProposerGo_eq_find (validators : List (JStr × ℚ)) (t : ℚ) :
    ∀ (addrs : List JStr) (acc : ℚ),
      selectProposerGo validators t addrs acc
        = ((cumulativeStakes validators addrs acc).find?
            (fun p => decide (t < p.2))).map Prod.fst := by
  intro addrs
  induction addrs with
  | nil => intro acc; rfl
  | cons a rest ih =>
    intro acc
    simp only [selectProposerGo, cumulativeStakes, List.find?]
    by_cases h : t < acc + ((List.lookup a validators).getD 0)
    · simp [h]
    · simp [h, ih]

/-- C2: the proposer for an epoch `E` extending last-notarized block `B` is
computed from the seed `concat(B.last_votes_hash, E)`, scaling the PRNG draw
to `[0, total_stake)` and taking the first validator, in lexicographically
sorted address order, whose cumulative stake exceeds the draw; the result is
a pure function of `(last_votes_hash, epoch, validators)` alone, hence
identical across nodes. -/
theorem updateProposer_deterministic_spec (rng : JStr → ℚ) (lastNotarizedBlock : Block)
    (epoch : Int) (validators : List (JStr × ℚ)) :
    updateProposer rng lastNotarizedBlock epoch validators
      = selectProposerSpec
          (rng (proposerSeed lastNotarizedBlock.last_votes_hash epoch)
            * totalStake validators)
          validators
    ∧ ∀ b : Block, b.last_votes_hash = lastNotarizedBlock.last_votes_hash →
        updateProposer rng b epoch validators
          = updateProposer rng lastNotarizedBlock epoch validators := by
  constructor
  · simp only [updateProposer, selectProposer, selectProposerSpec, totalStake]
    exact selectProposerGo_eq_find validators _ _ 0
  · intro b hb
    simp only [updateProposer, hb]

/-- C2 witness: the theorem applied at a concrete PRNG, block and validator
map. -/
theorem updateProposer_deterministic_spec_witness :
    updateProposer (fun _ => 0)
        { number := 1, epoch := 1, hash := [], last_hash := [],
          last_votes_hash := ['h'], proposer := [], validators := [] } 2
        [(['a'], 3)]
      = selectProposerSpec
          ((fun _ : JStr => (0 : ℚ)) (proposerSeed ['h'] 2) * totalStake [(['a'], 3)])
          [(['a'], 3)]
    ∧ updateProposer (fun _ => 0)
        { number := 5, epoch := 4, hash := ['x'], last_hash := ['y'],
          last_votes_hash := ['h'], proposer := ['z'], validators := [] } 2
        [(['a'], 3)]
      = updateProposer (fun _ => 0)
        { number := 1, epoch := 1, hash := [], last_hash := [],
          last_votes_hash := ['h'], proposer := [], validators := [] } 2
        [(['a'], 3)] :=
  ⟨(updateProposer_deterministic_spec (fun _ => 0) _ 2 [(['a'], 3)]).1,
   (updateProposer_deterministic_spec (fun _ => 0) _ 2 [(['a'], 3)]).2 _ rfl⟩

/-- C10: for a transaction whose `tx_body` has an operation,
`isValidConsensusTx` accepts exactly the SET_VALUE operations whose `ref`
starts with `/consensus/number` and the SET operations whose `op_list` has
exactly two elements (with no constraint on the listed refs); every other
operation type is rejected. -/
theorem isValidConsensusTx_characterization (tx : Tx) (op : TxOperation)
    (hop : tx.tx_body.operation = some op) :
    isValidConsensusTx tx = true ↔
      (op.type = WriteDbOp.SET_VALUE
          ∧ List.isPrefixOf consensusTxPathStart op.ref = true)
      ∨ (op.type = WriteDbOp.SET
          ∧ ∃ opList, op.op_list = some opList ∧ opList.length = 2) := by
  obtain ⟨t, r, ol⟩ := op
  simp only [isValidConsensusTx, hop]
  cases t <;> cases ol <;> simp

/-- C10 witness: a SET transaction whose two listed operations have refs
outside `/consensus/number` is accepted. -/
theorem isValidConsensusTx_characterization_witness :
    isValidConsensusTx
      { tx_body := { operation :=
                       some { type := WriteDbOp.SET, ref := [],
                              op_list := some
                                [{ type := WriteDbOp.SET_VALUE,
                                   ref := "/anything".toList },
                                 { type := WriteDbOp.SET_OWNER,
                                   ref := "/elsewhere".toList }] } }
        address := []
        hash := [] } = true :=
  (isValidConsensusTx_characterization _ _ rfl).mpr
    (Or.inr ⟨rfl,
      [{ type := WriteDbOp.SET_VALUE, ref := "/anything".toList },
       { type := WriteDbOp.SET_OWNER, ref := "/elsewhere".toList }], rfl, rfl⟩)

/-- C6 counterexample: `startEpochTransition` initializes the epoch with
`Math.ceil`, not the claimed floor — at `now − genesis = 1`, `EPOCH_MS = 2`
the code yields 1 while the claimed formula yields 0. -/
theorem startEpochTransition_ceil_ne_claimed_floor :
    startEpochTransitionEpoch 1 0 2 ≠ epochClaimFloor 1 0 0 2 := by
  unfold startEpochTransitionEpoch epochClaimFloor
  norm_num

/-- C6 amended: every `setEpochTransition` tick snaps `state.epoch` to
`floor((now − genesis_timestamp − time_adjustment) / EPOCH_MS)` regardless
of the previous epoch value, while `startEpochTransition` initializes it to
`ceil((now − genesis_timestamp) / EPOCH_MS)` (no adjustment is subtracted
there). -/
theorem epochClock_tick_floor_init_ceil (e e' now timeAdjustment startingTime : Int)
    (epochMs : ℚ) :
    setEpochTransitionTick e now timeAdjustment startingTime epochMs
      = epochClaimFloor now startingTime timeAdjustment epochMs
    ∧ setEpochTransitionTick e' now timeAdjustment startingTime epochMs
      = setEpochTransitionTick e now timeAdjustment startingTime epochMs
    ∧ startEpochTransitionEpoch now startingTime epochMs
      = ⌈((now - startingTime : Int) : ℚ) / epochMs⌉ := by
  refine ⟨?_, rfl, rfl⟩
  unfold setEpochTransitionTick epochClaimFloor
  push_cast
  ring_nf

/-- C9 counterexample: a CONSENSUS message whose `dataProtoVer` has major 0
against a receiver of major 1 — a different major in the "older" direction —
passes `checkDataProtoVerForConsensus` and is handled, not dropped; and a
non-batch TRANSACTION message with a strictly newer major (2 against 1) is
also handled, since the transaction gate only guards batch transactions. -/
theorem consensus_older_major_not_dropped :
    ((0 : Nat) ≠ 1
      ∧ checkDataProtoVerForConsensus 1 0 = true
      ∧ routePeerMessage 1 true false
          { dataProtoVer := DataProtoVer.ver 0 0 0, timestampOk := true,
            kind := PeerMessageKind.consensusMsg } = RouteOutcome.handlerInvoked)
    ∧ ((2 : Nat) ≠ 1
      ∧ routePeerMessage 1 true false
          { dataProtoVer := DataProtoVer.ver 2 0 0, timestampOk := true,
            kind := PeerMessageKind.transactionMsg false }
          = RouteOutcome.handlerInvoked) := by
  decide

/-- C9 amended: an absent or unparsable `dataProtoVer` closes the socket and
drops the message for every message kind; CONSENSUS and batch-TRANSACTION
messages are silently dropped exactly when the sender's major version is
strictly newer than the receiver's; older majors pass the gate, and
non-batch TRANSACTION messages are never version-gated. -/
theorem routePeerMessage_version_gating (myMajor msgMajor minor patch : Nat)
    (serving trackerHasTx tsOk : Bool) (kind : PeerMessageKind) :
    (routePeerMessage myMajor serving trackerHasTx
        { dataProtoVer := DataProtoVer.absent, timestampOk := tsOk, kind := kind }
      = RouteOutcome.closedInvalidVer)
    ∧ (routePeerMessage myMajor serving trackerHasTx
        { dataProtoVer := DataProtoVer.unparsable, timestampOk := tsOk, kind := kind }
      = RouteOutcome.closedInvalidVer)
    ∧ (myMajor < msgMajor →
        routePeerMessage myMajor serving trackerHasTx
          { dataProtoVer := DataProtoVer.ver msgMajor minor patch, timestampOk := true,
            kind := PeerMessageKind.consensusMsg } = RouteOutcome.droppedVersionGate)
    ∧ (myMajor < msgMajor →
        routePeerMessage myMajor true false
          { dataProtoVer := DataProtoVer.ver msgMajor minor patch, timestampOk := true,
            kind := PeerMessageKind.transactionMsg true }
          = RouteOutcome.droppedVersionGate)
    ∧ (msgMajor ≤ myMajor →
        routePeerMessage myMajor true trackerHasTx
          { dataProtoVer := DataProtoVer.ver msgMajor minor patch, timestampOk := true,
            kind := PeerMessageKind.consensusMsg } = RouteOutcome.handlerInvoked)
    ∧ (routePeerMessage myMajor true false
        { dataProtoVer := DataProtoVer.ver msgMajor minor patch, timestampOk := true,
          kind := PeerMessageKind.transactionMsg false }
        = RouteOutcome.handlerInvoked) := by
  unfold routePeerMessage checkDataProtoVerForConsensus checkDataProtoVerForTransaction
  refine ⟨rfl, rfl, ?_, ?_, ?_, ?_⟩
  · intro h; simp [h]
  · intro h; simp [h]
  · intro h; simp [Nat.not_lt.mpr h]
  · simp

/-- C9 amended witness: the gating applied at concrete majors 1 (receiver)
and 2 / 1 (senders). -/
theorem routePeerMessage_version_gating_witness :
    routePeerMessage 1 true true
        { dataProtoVer := DataProtoVer.ver 2 3 4, timestampOk := true,
          kind := PeerMessageKind.consensusMsg } = RouteOutcome.droppedVersionGate
    ∧ routePeerMessage 1 true true
        { dataProtoVer := DataProtoVer.ver 1 9 9, timestampOk := true,
          kind := PeerMessageKind.consensusMsg } = RouteOutcome.handlerInvoked :=
  ⟨(routePeerMessage_version_gating 1 2 3 4 true true true
      PeerMessageKind.consensusMsg).2.2.1 (by decide),
   (routePeerMessage_version_gating 1 1 9 9 true true true
      PeerMessageKind.consensusMsg).2.2.2.2.1 (by decide)⟩

/-- C7: a PROPOSE message that reaches the handler (compatible version,
engine RUNNING, both fields present, proposal tx not yet tracked) and whose
block number exceeds the last notarized number plus one triggers a
chain-segment request to every outbound peer carrying the current last
finalized block, and the handler returns without checking the proposal,
without voting and without broadcasting. -/
theorem handleConsensusMessage_out_of_window (env : ConsensusEnv) (b : Block) (tx : Tx)
    (hver : env.versionOk = true) (hrun : env.running = true)
    (htracker : env.inTracker tx.hash = false)
    (hwin : env.lastNotarizedBlock.number + 1 < b.number) :
    handleConsensusMessage env (ConsensusMsgValue.propose (some b) (some tx))
      = { segmentRequests :=
            env.outboundPeers.map (fun peer => (peer, env.lastFinalizedBlock)),
          checkedProposal := false, votedOn := none, broadcasted := false } := by
  unfold handleConsensusMessage
  simp [hver, hrun, htracker, hwin]

/-- C7 witness: the theorem applied to a concrete engine state with two
outbound peers and an out-of-window proposal. -/
theorem handleConsensusMessage_out_of_window_witness :
    handleConsensusMessage
      { versionOk := true, running := true, inTracker := fun _ => false,
        lastNotarizedBlock :=
          { number := 2, epoch := 2, hash := ['n'], last_hash := [],
            last_votes_hash := [], proposer := [], validators := [] },
        lastFinalizedBlock :=
          { number := 1, epoch := 1, hash := ['f'], last_hash := [],
            last_votes_hash := [], proposer := [], validators := [] },
        outboundPeers := [['p'], ['q']], proposalAccepted := true,
        voteAccepted := true }
      (ConsensusMsgValue.propose
        (some { number := 7, epoch := 9, hash := ['b'], last_hash := [],
                last_votes_hash := [], proposer := [], validators := [] })
        (some { tx_body := { operation := none }, address := [], hash := ['t'] }))
      = { segmentRequests :=
            [(['p'], { number := 1, epoch := 1, hash := ['f'], last_hash := [],
                       last_votes_hash := [], proposer := [], validators := [] }),
             (['q'], { number := 1, epoch := 1, hash := ['f'], last_hash := [],
                       last_votes_hash := [], proposer := [], validators := [] })],
          checkedProposal := false, votedOn := none, broadcasted := false } :=
  handleConsensusMessage_out_of_window _ _ _ rfl rfl rfl (by decide)

theorem executeOrRollback_step {σ : Type} (exec : σ → Tx → Option σ) (db : BackedDb σ)
    (tx : Tx) (valid invalid : List Tx) :
    executeOrRollbackTransactionForBlock exec db tx valid invalid
      = some ({ state := (exec db.state tx).getD db.state, backup := some db.state },
          if (exec db.state tx).isSome then valid ++ [tx] else valid,
          if (exec db.state tx).isSome then invalid else invalid ++ [tx]) := by
  unfold executeOrRollbackTransactionForBlock backupDb restoreDb
  cases h : exec db.state tx <;> simp [h]

theorem drainTransactions_eq_spec {σ : Type} (exec : σ → Tx → Option σ) :
    ∀ (txs : List Tx) (db : BackedDb σ) (valid invalid : List Tx),
      ∃ backupSlot,
        drainTransactions exec db valid invalid txs
          = some ({ state := (drainSpec exec db.state txs).1, backup := backupSlot },
              valid ++ (drainSpec exec db.state txs).2.1,
              invalid ++ (drainSpec exec db.state txs).2.2) := by
  intro txs
  induction txs with
  | nil =>
    intro db valid invalid
    exact ⟨db.backup, by simp [drainTransactions, drainSpec]⟩
  | cons tx rest ih =>
    intro db valid invalid
    rw [drainTransactions, executeOrRollback_step]
    cases h : exec db.state tx with
    | some s' =>
      obtain ⟨bu, hbu⟩ := ih { state := s', backup := some db.state } (valid ++ [tx]) invalid
      exact ⟨bu, by simp [h, drainSpec, hbu]⟩
    | none =>
      obtain ⟨bu, hbu⟩ := ih { state := db.state, backup := some db.state } valid
        (invalid ++ [tx])
      exact ⟨bu, by simp [h, drainSpec, hbu]⟩

/-- C8: while building a proposal every pool transaction runs under a prior
`backupDb`; a failing transaction leaves the database in exactly its state
from before that transaction and goes to the invalid list, a succeeding one
keeps its effects; the drain therefore computes the fold of the succeeding
transactions only (`drainSpec`), with the valid/invalid split as the spec
describes, and `removeInvalidTxsFromPool` drops every invalid transaction
from the pool. -/
theorem proposalConstruction_per_tx_atomicity {σ : Type} (exec : σ → Tx → Option σ)
    (db : BackedDb σ) (txs poolTxs : List Tx) :
    (∀ (d : BackedDb σ) (tx : Tx) (valid invalid : List Tx),
        executeOrRollbackTransactionForBlock exec d tx valid invalid
          = some ({ state := (exec d.state tx).getD d.state, backup := some d.state },
              if (exec d.state tx).isSome then valid ++ [tx] else valid,
              if (exec d.state tx).isSome then invalid else invalid ++ [tx]))
    ∧ (∃ backupSlot,
        drainTransactions exec db [] [] txs
          = some ({ state := (drainSpec exec db.state txs).1, backup := backupSlot },
              (drainSpec exec db.state txs).2.1,
              (drainSpec exec db.state txs).2.2))
    ∧ (∀ tx ∈ (drainSpec exec db.state txs).2.2,
        tx ∉ removeInvalidTxsFromPool poolTxs (drainSpec exec db.state txs).2.2) := by
  refine ⟨fun d tx valid invalid => executeOrRollback_step exec d tx valid invalid,
    ?_, ?_⟩
  · obtain ⟨bu, hbu⟩ := drainTransactions_eq_spec exec txs db [] []
    exact ⟨bu, by simpa using hbu⟩
  · intro tx htx hmem
    simp only [removeInvalidTxsFromPool, List.mem_filter, decide_eq_true_eq] at hmem
    exact hmem.2 htx

/-- C8 witness: a concrete drain over three transactions whose middle one
fails — it lands in the invalid list and is removed from the pool. -/
theorem proposalConstruction_per_tx_atomicity_witness :
    ({ tx_body := { operation := none }, address := [], hash := ['f'] } : Tx)
      ∉ removeInvalidTxsFromPool
        [{ tx_body := { operation := none }, address := [], hash := ['f'] }]
        (drainSpec
          (fun (s : Nat) (t : Tx) => if t.hash = ['f'] then none else some (s + 1)) 0
          [{ tx_body := { operation := none }, address := [], hash := ['g'] },
           { tx_body := { operation := none }, address := [], hash := ['f'] },
           { tx_body := { operation := none }, address := [], hash := ['k'] }]).2.2 :=
  (proposalConstruction_per_tx_atomicity
      (fun (s : Nat) (t : Tx) => if t.hash = ['f'] then none else some (s + 1))
      { state := 0, backup := none }
      [{ tx_body := { operation := none }, address := [], hash := ['g'] },
       { tx_body := { operation := none }, address := [], hash := ['f'] },
       { tx_body := { operation := none }, address := [], hash := ['k'] }]
      [{ tx_body := { operation := none }, address := [], hash := ['f'] }]).2.2
    _ (by decide)

theorem votedForEpoch_iff (pool : BlockPoolState) (myAddr : JStr) (e : Int) :
    votedForEpoch pool myAddr e = true ↔
      ∃ bh info votes, pool.epochToBlock e = some bh
        ∧ pool.hashToBlockInfo bh = some info
        ∧ info.votes = some votes
        ∧ ∃ v ∈ votes, v.address = myAddr := by
  constructor
  · intro h
    unfold votedForEpoch at h
    split at h
    · cases h
    next bh he =>
      split at h
      · cases h
      next info hinfo =>
        split at h
        · cases h
        next votes hv =>
          simp only [gt_iff_lt, decide_eq_true_eq, List.length_pos_iff_exists_mem] at h
          obtain ⟨v, hm⟩ := h
          rw [List.mem_filter] at hm
          exact ⟨bh, info, votes, he, hinfo, hv, v, hm.1, by simpa using hm.2⟩
  · rintro ⟨bh, info, votes, he, hinfo, hv, v, hm, ha⟩
    unfold votedForEpoch
    rw [he]
    dsimp only
    rw [hinfo]
    dsimp only
    rw [hv]
    simp only [gt_iff_lt, decide_eq_true_eq, List.length_pos_iff_exists_mem]
    exact ⟨v, List.mem_filter.mpr ⟨hm, by simpa using ha⟩⟩

theorem tryVote_some_inv (pool : BlockPoolState) (myAddr : JStr) (b : Block) (v : Tx)
    (h : tryVote pool myAddr b = some v) :
    v = mkVoteTx myAddr b ∧ votedForEpoch pool myAddr b.epoch = false := by
  unfold tryVote vote at h
  cases hv : votedForEpoch pool myAddr b.epoch with
  | true => simp [hv] at h
  | false =>
    refine ⟨?_, rfl⟩
    rw [hv] at h
    simp only [Bool.false_eq_true, if_false] at h
    cases hl : List.lookup myAddr b.validators with
    | none => rw [hl] at h; cases h
    | some stake =>
      rw [hl] at h
      by_cases hs : stake = 0
      · simp [hs] at h
      · simp only [hs, if_false] at h
        exact (Option.some_inj.mp h).symm

theorem votedForEpoch_mono (pool : BlockPoolState) (myAddr : JStr) (b : Block) (v : Tx)
    (e : Int) (hne : e ≠ b.epoch) (h : votedForEpoch pool myAddr e = true) :
    votedForEpoch (addSeenVoteOwn pool b v) myAddr e = true := by
  rw [votedForEpoch_iff] at h ⊢
  obtain ⟨bh, info, votes, he, hinfo, hv, v0, hm, ha⟩ := h
  by_cases hbh : bh = b.hash
  · subst hbh
    refine ⟨b.hash, { votes := some ((info.votes.getD []) ++ [v]) },
      (info.votes.getD []) ++ [v], ?_, ?_, rfl, v0, ?_, ha⟩
    · simpa [addSeenVoteOwn, hne] using he
    · simp [addSeenVoteOwn, hinfo]
    · rw [hv]
      simp only [Option.getD_some, List.mem_append]
      exact Or.inl hm
  · refine ⟨bh, info, votes, ?_, ?_, hv, v0, hm, ha⟩
    · simpa [addSeenVoteOwn, hne] using he
    · simpa [addSeenVoteOwn, hbh] using hinfo

theorem votedForEpoch_addSeenVoteOwn_self (pool : BlockPoolState) (myAddr : JStr)
    (b : Block) :
    votedForEpoch (addSeenVoteOwn pool b (mkVoteTx myAddr b)) myAddr b.epoch = true := by
  rw [votedForEpoch_iff]
  cases hinfo : pool.hashToBlockInfo b.hash with
  | none =>
    refine ⟨b.hash, { votes := some [mkVoteTx myAddr b] }, [mkVoteTx myAddr b],
      ?_, ?_, rfl, mkVoteTx myAddr b, by simp, rfl⟩
    · simp [addSeenVoteOwn]
    · simp [addSeenVoteOwn, hinfo]
  | some info =>
    refine ⟨b.hash, { votes := some ((info.votes.getD []) ++ [mkVoteTx myAddr b]) },
      (info.votes.getD []) ++ [mkVoteTx myAddr b], ?_, ?_, rfl,
      mkVoteTx myAddr b, by simp, rfl⟩
    · simp [addSeenVoteOwn]
    · simp [addSeenVoteOwn, hinfo]

theorem voteTrace_fresh (myAddr : JStr) :
    ∀ (blocks : List Block) (pool : BlockPoolState) (e : Int),
      votedForEpoch pool myAddr e = true →
      e ∉ ((voteTrace myAddr pool blocks).2.map Prod.fst) := by
  intro blocks
  induction blocks with
  | nil => intro pool e _; simp [voteTrace]
  | cons b bs ih =>
    intro pool e he
    cases h : tryVote pool myAddr b with
    | none =>
      simp only [voteTrace, h]
      exact ih pool e he
    | some v =>
      obtain ⟨-, hfalse⟩ := tryVote_some_inv pool myAddr b v h
      have hne : e ≠ b.epoch := by
        intro hcontra; rw [hcontra] at he; rw [he] at hfalse; cases hfalse
      simp only [voteTrace, h, List.map_cons, List.mem_cons]
      push_neg
      exact ⟨hne, ih (addSeenVoteOwn pool b v) e (votedForEpoch_mono _ _ _ _ _ hne he)⟩

/-- C4: `tryVote` returns without creating a vote transaction whenever
`votedForEpoch` already holds for the proposal's epoch, and along any run of
vote attempts (each emitted vote being recorded in the pool) the emitted
votes have pairwise distinct epochs — the node never produces two votes for
the same epoch. -/
theorem tryVote_one_per_epoch (myAddr : JStr) (pool : BlockPoolState)
    (blocks : List Block) (b : Block) :
    (votedForEpoch pool myAddr b.epoch = true → tryVote pool myAddr b = none)
    ∧ ((voteTrace myAddr pool blocks).2.map Prod.fst).Nodup := by
  constructor
  · intro h
    unfold tryVote
    simp [h]
  · induction blocks generalizing pool with
    | nil => simp [voteTrace]
    | cons b' bs ih =>
      cases h : tryVote pool myAddr b' with
      | none =>
        simp only [voteTrace, h]
        exact ih pool
      | some v =>
        obtain ⟨hv, -⟩ := tryVote_some_inv pool myAddr b' v h
        simp only [voteTrace, h, List.map_cons, List.nodup_cons]
        refine ⟨?_, ih (addSeenVoteOwn pool b' v)⟩
        subst hv
        exact voteTrace_fresh myAddr bs (addSeenVoteOwn pool b' (mkVoteTx myAddr b'))
          b'.epoch (votedForEpoch_addSeenVoteOwn_self pool myAddr b')

/-- C4 witness: with a vote by this node already recorded for the block
indexed at epoch 5, `tryVote` on an epoch-5 proposal emits nothing. -/
theorem tryVote_one_per_epoch_witness :
    tryVote
      { hashToBlockInfo := fun h =>
          if h = ['h'] then
            some { votes :=
                     some [{ tx_body := { operation := none }, address := ['a'],
                             hash := ['v'] }] }
          else none,
        epochToBlock := fun e => if e = 5 then some ['h'] else none }
      ['a']
      { number := 3, epoch := 5, hash := ['h'], last_hash := [],
        last_votes_hash := [], proposer := [], validators := [(['a'], 1)] } = none :=
  (tryVote_one_per_epoch ['a'] _ []
      { number := 3, epoch := 5, hash := ['h'], last_hash := [],
        last_votes_hash := [], proposer := [], validators := [(['a'], 1)] }).1
    (by decide)

theorem checkProposal_true_inv (ctx : ProposalCheckCtx) (block prev : Block)
    (hprev : ctx.prevBlock = some prev) (h : checkProposal ctx block = true) :
    prev.epoch < block.epoch
      ∧ selectProposer ctx.rng (proposerSeed prev.last_votes_hash block.epoch)
          block.validators = some block.proposer := by
  unfold checkProposal at h
  rw [hprev] at h
  simp only [Bool.and_eq_true, decide_eq_true_eq] at h
  obtain ⟨-, ⟨⟨⟨⟨⟨-, -⟩, hepoch⟩, hsel⟩, -⟩, -⟩, -⟩ := h
  exact ⟨hepoch, hsel⟩

/-- C5: `checkProposal` returns false when the resolved predecessor's epoch
is at least the proposal's epoch, and when the proposer differs from the one
selected from seed `concat(prev.last_votes_hash, epoch)` over the proposal's
validator set; consequently, along any parent chain of blocks accepted by
`checkProposal`, epochs are strictly increasing. -/
theorem checkProposal_epoch_proposer_gates
    (ctx : ProposalCheckCtx) (block prev : Block)
    (ctxOf : Block → Block → ProposalCheckCtx) (l : List Block)
    (hprev : ctx.prevBlock = some prev) :
    (prev.epoch ≥ block.epoch → checkProposal ctx block = false)
    ∧ (selectProposer ctx.rng (proposerSeed prev.last_votes_hash block.epoch)
          block.validators ≠ some block.proposer → checkProposal ctx block = false)
    ∧ (acceptedChain ctxOf l →
        List.Pairwise (fun a b => a.epoch < b.epoch) l) := by
  refine ⟨?_, ?_, ?_⟩
  · intro hep
    cases hcp : checkProposal ctx block with
    | false => rfl
    | true =>
      exact absurd (checkProposal_true_inv ctx block prev hprev hcp).1 (by omega)
  · intro hsel
    cases hcp : checkProposal ctx block with
    | false => rfl
    | true => exact absurd (checkProposal_true_inv ctx block prev hprev hcp).2 hsel
  · intro hacc
    have hlt : List.Chain' (fun a b => a.epoch < b.epoch) l := by
      refine List.Chain'.imp ?_ hacc
      intro a b hab
      exact (checkProposal_true_inv (ctxOf a b) b a hab.1 hab.2).1
    haveI : IsTrans Block (fun a b => a.epoch < b.epoch) :=
      ⟨fun _ _ _ hab hbc => lt_trans hab hbc⟩
    exact List.chain'_iff_pairwise.mp hlt

/-- C5 witness: the gates applied at a concrete context where the
predecessor's epoch is too high, and a concrete two-block chain accepted by
`checkProposal` (single validator of stake 1, PRNG draw 0), whose epochs
strictly increase. -/
theorem checkProposal_epoch_proposer_gates_witness :
    (checkProposal
      { parseOk := true, hasSeenBlock := false, signerAddr := ['a'],
        txBlockHash := ['b'], lightweight := true, staticOk := true,
        lastBlockNumber := 0,
        prevBlock := some
          { number := 1, epoch := 9, hash := ['p'], last_hash := [],
            last_votes_hash := [], proposer := ['a'], validators := [(['a'], 1)] },
        minNumValidators := 1, prevNotarized := true,
        notarizeFromLastVotesOk := true, rng := fun _ => 0, execChecksOk := true,
        addSeenBlockOk := true, extendsTipOk := true }
      { number := 2, epoch := 3, hash := ['b'], last_hash := ['p'],
        last_votes_hash := [], proposer := ['a'], validators := [(['a'], 1)] }
      = false)
    ∧ List.Pairwise (fun a b => a.epoch < b.epoch)
        [{ number := 1, epoch := 1, hash := ['p'], last_hash := [],
           last_votes_hash := [], proposer := ['a'],
           validators := [(['a'], 1)] : Block },
         { number := 2, epoch := 3, hash := ['b'], last_hash := ['p'],
           last_votes_hash := [], proposer := ['a'], validators := [(['a'], 1)] }] := by
  constructor
  · exact (checkProposal_epoch_proposer_gates _ _
      { number := 1, epoch := 9, hash := ['p'], last_hash := [],
        last_votes_hash := [], proposer := ['a'], validators := [(['a'], 1)] }
      (fun prev b =>
        { parseOk := true, hasSeenBlock := false, signerAddr := b.proposer,
          txBlockHash := b.hash, lightweight := true, staticOk := true,
          lastBlockNumber := 0, prevBlock := some prev, minNumValidators := 1,
          prevNotarized := true, notarizeFromLastVotesOk := true,
          rng := fun _ => 0, execChecksOk := true, addSeenBlockOk := true,
          extendsTipOk := true })
      [] rfl).1 (by decide)
  · refine (checkProposal_epoch_proposer_gates
      { parseOk := true, hasSeenBlock := false, signerAddr := ['a'],
        txBlockHash := ['b'], lightweight := true, staticOk := true,
        lastBlockNumber := 0,
        prevBlock := some
          { number := 1, epoch := 9, hash := ['p'], last_hash := [],
            last_votes_hash := [], proposer := ['a'], validators := [(['a'], 1)] },
        minNumValidators := 1, prevNotarized := true,
        notarizeFromLastVotesOk := true, rng := fun _ => 0, execChecksOk := true,
        addSeenBlockOk := true, extendsTipOk := true }
      { number := 2, epoch := 3, hash := ['b'], last_hash := ['p'],
        last_votes_hash := [], proposer := ['a'], validators := [(['a'], 1)] }
      { number := 1, epoch := 9, hash := ['p'], last_hash := [],
        last_votes_hash := [], proposer := ['a'], validators := [(['a'], 1)] }
      (fun prev b =>
        { parseOk := true, hasSeenBlock := false, signerAddr := b.proposer,
          txBlockHash := b.hash, lightweight := true, staticOk := true,
          lastBlockNumber := 0, prevBlock := some prev, minNumValidators := 1,
          prevNotarized := true, notarizeFromLastVotesOk := true,
          rng := fun _ => 0, execChecksOk := true, addSeenBlockOk := true,
          extendsTipOk := true })
      [{ number := 1, epoch := 1, hash := ['p'], last_hash := [],
         last_votes_hash := [], proposer := ['a'], validators := [(['a'], 1)] },
       { number := 2, epoch := 3, hash := ['b'], last_hash := ['p'],
         last_votes_hash := [], proposer := ['a'], validators := [(['a'], 1)] }]
      rfl).2.2 ?_
    refine List.chain'_cons.mpr ⟨⟨rfl, ?_⟩, List.chain'_singleton _⟩
    have hsel : selectProposer (fun _ => (0 : ℚ)) (proposerSeed [] 3) [(['a'], 1)]
        = some ['a'] := by
      norm_num [selectProposer, selectProposerGo, sortStrings, insertSortedStr,
        totalStake]
    norm_num [checkProposal, hsel]

theorem lastBlockNumber_concat (chain : List Block) (b : Block) :
    lastBlockNumber (chain ++ [b]) = b.number := by
  unfold lastBlockNumber
  rw [List.getLast?_concat]

theorem addNewBlockToChain_eq (chain : List Block) (b : Block) (c' : List Block)
    (h : addNewBlockToChain chain b = some c') : c' = chain ++ [b] := by
  unfold addNewBlockToChain at h
  split at h <;> split_ifs at h <;> exact (Option.some_inj.mp h).symm

theorem lastBlockNumber_cons_of_ne_nil (x : Block) (xs : List Block) (h : xs ≠ []) :
    lastBlockNumber (x :: xs) = lastBlockNumber xs := by
  cases xs with
  | nil => exact absurd rfl h
  | cons y ys => unfold lastBlockNumber; rw [List.getLast?_cons_cons]

theorem strictNumbers_le_last :
    ∀ (c : List Block), strictNumbers c → ∀ b ∈ c, b.number ≤ lastBlockNumber c := by
  intro c
  induction c with
  | nil => intro _ b hb; cases hb
  | cons x xs ih =>
    intro hs b hb
    rw [strictNumbers, List.pairwise_cons] at hs
    obtain ⟨hx, hxs⟩ := hs
    cases hb with
    | head =>
      cases hxs' : xs with
      | nil => subst hxs'; simp [lastBlockNumber]
      | cons y ys =>
        subst hxs'
        rw [lastBlockNumber_cons_of_ne_nil x (y :: ys) (by simp)]
        have hlast : (y :: ys).getLast (by simp) ∈ y :: ys := List.getLast_mem _
        have hnum : lastBlockNumber (y :: ys)
            = ((y :: ys).getLast (by simp)).number := by
          unfold lastBlockNumber
          rw [List.getLast?_eq_getLast _ (by simp)]
        rw [hnum]
        exact le_of_lt (hx _ hlast)
    | tail _ hmem =>
      have hne : xs ≠ [] := by rintro rfl; cases hmem
      rw [lastBlockNumber_cons_of_ne_nil x xs hne]
      exact ih hxs b hmem

theorem strictNumbers_concat (c : List Block) (b : Block) (hs : strictNumbers c)
    (hb : lastBlockNumber c < b.number) : strictNumbers (c ++ [b]) := by
  rw [strictNumbers, List.pairwise_append]
  refine ⟨hs, List.pairwise_singleton _ _, ?_⟩
  intro a ha b' hb'
  rw [List.mem_singleton] at hb'
  subst hb'
  exact lt_of_le_of_lt (strictNumbers_le_last c hs a ha) hb

theorem strictNumbers_unique_number (c : List Block) (hs : strictNumbers c) :
    ∀ b1 ∈ c, ∀ b2 ∈ c, b1.number = b2.number → b1 = b2 := by
  induction c with
  | nil => intro b1 hb1; cases hb1
  | cons x xs ih =>
    rw [strictNumbers, List.pairwise_cons] at hs
    obtain ⟨hx, hxs⟩ := hs
    intro b1 hb1 b2 hb2 hnum
    cases hb1 with
    | head =>
      cases hb2 with
      | head => rfl
      | tail _ h2 => exact absurd hnum (by have := hx b2 h2; omega)
    | tail _ h1 =>
      cases hb2 with
      | head => exact absurd hnum (by have := hx b1 h1; omega)
      | tail _ h2 => exact ih hxs b1 h1 b2 h2 hnum

theorem tryFinalizeLoop_growth :
    ∀ (l : List Block) (st st' : NodeState) (proms : List (Int × Nat)),
      tryFinalizeLoop st l = some (st', proms) →
      st.chain <+: st'.chain
      ∧ st'.hashToDbVer = st.hashToDbVer
      ∧ (∀ b ∈ st'.chain, b ∈ st.chain ∨ lastBlockNumber st.chain < b.number)
      ∧ (strictNumbers st.chain → strictNumbers st'.chain) := by
  intro l
  induction l with
  | nil =>
    intro st st' proms h
    unfold tryFinalizeLoop at h
    obtain ⟨h1, -⟩ := Prod.mk.injEq .. ▸ Option.some_inj.mp h
    subst h1
    exact ⟨List.prefix_refl _, rfl, fun b hb => Or.inl hb, fun hs => hs⟩
  | cons b rest ih =>
    intro st st' proms h
    unfold tryFinalizeLoop at h
    split at h
    · exact ih st st' proms h
    next hle =>
      cases ha : addNewBlockToChain st.chain b with
      | none =>
        rw [ha] at h
        dsimp only at h
        obtain ⟨h1, -⟩ := Prod.mk.injEq .. ▸ Option.some_inj.mp h
        subst h1
        exact ⟨List.prefix_refl _, rfl, fun x hx => Or.inl hx, fun hs => hs⟩
      | some chain' =>
        rw [ha] at h
        dsimp only at h
        cases hv : st.hashToDbVer b.hash with
        | none => rw [hv] at h; dsimp only at h; cases h
        | some ver =>
          rw [hv] at h
          dsimp only at h
          cases hrec : tryFinalizeLoop
              { chain := chain', hashToDbVer := st.hashToDbVer,
                finalVersion := some ver } rest with
          | none => rw [hrec] at h; cases h
          | some pr =>
            obtain ⟨st'', proms'⟩ := pr
            rw [hrec] at h
            dsimp only at h
            obtain ⟨h1, -⟩ := Prod.mk.injEq .. ▸ Option.some_inj.mp h
            subst h1
            have hc : chain' = st.chain ++ [b] := addNewBlockToChain_eq _ _ _ ha
            subst hc
            obtain ⟨hpre, hver, hmem, hstrict⟩ :=
              ih { chain := st.chain ++ [b], hashToDbVer := st.hashToDbVer,
                   finalVersion := some ver } st'' proms' hrec
            have hlt : lastBlockNumber st.chain < b.number := by omega
            refine ⟨(List.prefix_append _ [b]).trans hpre, hver, ?_, ?_⟩
            · intro x hx
              rcases hmem x hx with hx' | hx'
              · rcases List.mem_append.mp hx' with hx'' | hx''
                · exact Or.inl hx''
                · rw [List.mem_singleton] at hx''
                  subst hx''
                  exact Or.inr hlt
              · rw [lastBlockNumber_concat] at hx'
                exact Or.inr (lt_trans hlt hx')
            · intro hs
              exact hstrict (strictNumbers_concat _ _ hs hlt)

/-- C1: finalization only grows the finalized chain — the old chain is a
prefix of the new one, every newly appended block's number strictly exceeds
the previously last finalized number (so `tryFinalize` skips finalizable
blocks at or below it, and no block at a number `≤ N` is ever finalized
after a block at number `N`), numbers stay strictly increasing along the
chain, and any two finalized blocks at the same number are the same block,
hence have equal hashes. -/
theorem tryFinalize_safety (st st' : NodeState) (fc : List Block)
    (proms : List (Int × Nat)) (h : tryFinalize st fc = some (st', proms))
    (hs : strictNumbers st.chain) :
    st.chain <+: st'.chain
    ∧ (∀ b ∈ st'.chain, b ∉ st.chain → lastBlockNumber st.chain < b.number)
    ∧ strictNumbers st'.chain
    ∧ (∀ b1 ∈ st'.chain, ∀ b2 ∈ st'.chain, b1.number = b2.number →
        b1.hash = b2.hash) := by
  unfold tryFinalize at h
  by_cases he : fc.isEmpty
  · rw [if_pos he] at h
    obtain ⟨h1, -⟩ := Prod.mk.injEq .. ▸ Option.some_inj.mp h
    subst h1
    exact ⟨List.prefix_refl _, fun b hb hb' => absurd hb hb',
      hs, fun b1 h1 b2 h2 hn =>
        congrArg Block.hash (strictNumbers_unique_number _ hs b1 h1 b2 h2 hn)⟩
  · rw [if_neg he] at h
    obtain ⟨hpre, -, hmem, hstrict⟩ := tryFinalizeLoop_growth _ _ _ _ h
    have hs' := hstrict hs
    refine ⟨hpre, ?_, hs', fun b1 h1 b2 h2 hn =>
      congrArg Block.hash (strictNumbers_unique_number _ hs' b1 h1 b2 h2 hn)⟩
    intro b hb hnot
    rcases hmem b hb with h' | h'
    · exact absurd h' hnot
    · exact h'

/-- C1 witness: a concrete run appending one block over a genesis-only
chain. -/
theorem tryFinalize_safety_witness :
    tryFinalize
      { chain := [{ number := 0, epoch := 0, hash := ['g'], last_hash := [],
                    last_votes_hash := [], proposer := [], validators := [] }],
        hashToDbVer := fun h => if h = ['b'] then some 7 else none,
        finalVersion := some 0 }
      [{ number := 1, epoch := 1, hash := ['b'], last_hash := ['g'],
         last_votes_hash := [], proposer := [], validators := [] },
       { number := 2, epoch := 2, hash := ['c'], last_hash := ['b'],
         last_votes_hash := [], proposer := [], validators := [] }]
      = some
        ({ chain := [{ number := 0, epoch := 0, hash := ['g'], last_hash := [],
                       last_votes_hash := [], proposer := [], validators := [] },
                     { number := 1, epoch := 1, hash := ['b'], last_hash := ['g'],
                       last_votes_hash := [], proposer := [], validators := [] }],
           hashToDbVer := fun h => if h = ['b'] then some 7 else none,
           finalVersion := some 7 }, [((1 : Int), (7 : Nat))])
    ∧ strictNumbers
        [{ number := 0, epoch := 0, hash := ['g'], last_hash := [],
           last_votes_hash := [], proposer := [], validators := [] }]
    ∧ [{ number := 0, epoch := 0, hash := ['g'], last_hash := [],
         last_votes_hash := [], proposer := [], validators := [] : Block }]
        <+: [{ number := 0, epoch := 0, hash := ['g'], last_hash := [],
               last_votes_hash := [], proposer := [], validators := [] },
             { number := 1, epoch := 1, hash := ['b'], last_hash := ['g'],
               last_votes_hash := [], proposer := [], validators := [] }] := by
  have hrun : tryFinalize
      { chain := [{ number := 0, epoch := 0, hash := ['g'], last_hash := [],
                    last_votes_hash := [], proposer := [], validators := [] }],
        hashToDbVer := fun h => if h = ['b'] then some 7 else none,
        finalVersion := some 0 }
      [{ number := 1, epoch := 1, hash := ['b'], last_hash := ['g'],
         last_votes_hash := [], proposer := [], validators := [] },
       { number := 2, epoch := 2, hash := ['c'], last_hash := ['b'],
         last_votes_hash := [], proposer := [], validators := [] }]
      = some
        ({ chain := [{ number := 0, epoch := 0, hash := ['g'], last_hash := [],
                       last_votes_hash := [], proposer := [], validators := [] },
                     { number := 1, epoch := 1, hash := ['b'], last_hash := ['g'],
                       last_votes_hash := [], proposer := [], validators := [] }],
           hashToDbVer := fun h => if h = ['b'] then some 7 else none,
           finalVersion := some 7 }, [((1 : Int), (7 : Nat))]) := by
    rfl
  have hstrict : strictNumbers
      [{ number := 0, epoch := 0, hash := ['g'], last_hash := [],
         last_votes_hash := [], proposer := [], validators := [] }] := by
    unfold strictNumbers
    exact List.pairwise_singleton _ _
  exact ⟨hrun, hstrict, (tryFinalize_safety _ _ _ _ hrun hstrict).1⟩

theorem linkedChain_numbers_lt (l : List Block) (h : linkedChain l) :
    List.Pairwise (fun a b => a.number < b.number) l := by
  haveI : IsTrans Block (fun a b => a.number < b.number) :=
    ⟨fun _ _ _ hab hbc => lt_trans hab hbc⟩
  exact List.chain'_iff_pairwise.mp (h.imp fun hab => by omega)

theorem tryFinalizeLoop_run :
    ∀ (l : List Block) (st : NodeState),
      linkedChain l →
      (∀ x ∈ l, (st.hashToDbVer x.hash).isSome) →
      (∀ b, l.head? = some b →
          addNewBlockToChain st.chain b = some (st.chain ++ [b])
          ∧ lastBlockNumber st.chain < b.number) →
      tryFinalizeLoop st l
        = some
          ({ chain := st.chain ++ l, hashToDbVer := st.hashToDbVer,
             finalVersion :=
               match l.getLast? with
               | none => st.finalVersion
               | some b => st.hashToDbVer b.hash },
           l.map (fun b => (b.number, (st.hashToDbVer b.hash).getD 0))) := by
  intro l
  induction l with
  | nil =>
    intro st _ _ _
    simp [tryFinalizeLoop]
  | cons b rest ih =>
    intro st hlinked hver hhead
    obtain ⟨hadd, hlt⟩ := hhead b rfl
    have hvb : (st.hashToDbVer b.hash).isSome := hver b (List.mem_cons_self _ _)
    obtain ⟨v, hv⟩ := Option.isSome_iff_exists.mp hvb
    rw [tryFinalizeLoop, if_neg (by omega), hadd]
    dsimp only
    rw [hv]
    dsimp only
    obtain ⟨hhd, htl⟩ := List.chain'_cons'.mp hlinked
    have hrec := ih ⟨st.chain ++ [b], st.hashToDbVer, some v⟩ htl
      (fun x hx => hver x (List.mem_cons_of_mem _ hx))
      (by
        intro b' hb'
        have hlink := hhd b' hb'
        constructor
        · unfold addNewBlockToChain
          rw [List.getLast?_concat]
          dsimp only
          rw [if_pos ⟨hlink.1, hlink.2⟩]
        · rw [lastBlockNumber_concat]
          omega)
    rw [hrec]
    dsimp only
    cases hrest : rest with
    | nil =>
      subst hrest
      simp [hv]
    | cons c cs =>
      subst hrest
      rw [List.getLast?_cons_cons]
      simp [hv, List.append_assoc]
      cases hgl : (c :: cs).getLast? with
      | none => simp at hgl
      | some x => rfl

theorem tryFinalizeLoop_filter :
    ∀ (l : List Block) (st : NodeState),
      linkedChain l →
      (∀ x ∈ l, lastBlockNumber st.chain < x.number →
        (st.hashToDbVer x.hash).isSome) →
      (∀ b, (l.filter
          (fun x => decide (lastBlockNumber st.chain < x.number))).head? = some b →
          addNewBlockToChain st.chain b = some (st.chain ++ [b])) →
      tryFinalizeLoop st l
        = some
          ({ chain := st.chain
               ++ l.filter (fun x => decide (lastBlockNumber st.chain < x.number)),
             hashToDbVer := st.hashToDbVer,
             finalVersion :=
               match (l.filter
                   (fun x => decide (lastBlockNumber st.chain < x.number))).getLast? with
               | none => st.finalVersion
               | some b => st.hashToDbVer b.hash },
           (l.filter (fun x => decide (lastBlockNumber st.chain < x.number))).map
             (fun b => (b.number, (st.hashToDbVer b.hash).getD 0))) := by
  intro l
  induction l with
  | nil =>
    intro st _ _ _
    simp [tryFinalizeLoop]
  | cons b rest ih =>
    intro st hlinked hver hhead
    by_cases hble : b.number ≤ lastBlockNumber st.chain
    · have hfil : (b :: rest).filter
          (fun x => decide (lastBlockNumber st.chain < x.number))
          = rest.filter (fun x => decide (lastBlockNumber st.chain < x.number)) := by
        rw [List.filter_cons]
        simp [show ¬ lastBlockNumber st.chain < b.number by omega]
      rw [tryFinalizeLoop, if_pos hble]
      rw [hfil] at hhead ⊢
      exact ih st (List.chain'_cons'.mp hlinked).2
        (fun x hx => hver x (List.mem_cons_of_mem _ hx)) hhead
    · have hbgt : lastBlockNumber st.chain < b.number := by omega
      have hall : ∀ x ∈ rest, lastBlockNumber st.chain < x.number := by
        intro x hx
        have := (List.pairwise_cons.mp (linkedChain_numbers_lt _ hlinked)).1 x hx
        omega
      have hfil : (b :: rest).filter
          (fun x => decide (lastBlockNumber st.chain < x.number)) = b :: rest := by
        rw [List.filter_cons, if_pos (decide_eq_true hbgt)]
        congr 1
        exact List.filter_eq_self.mpr (fun x hx => decide_eq_true (hall x hx))
      rw [hfil] at hhead ⊢
      exact tryFinalizeLoop_run (b :: rest) st hlinked
        (fun x hx => by
          rcases List.mem_cons.mp hx with rfl | hx'
          · exact hver x (List.mem_cons_self _ _) hbgt
          · exact hver x (List.mem_cons_of_mem _ hx') (hall x hx'))
        (by
          intro b' hb'
          rw [List.head?_cons, Option.some_inj] at hb'
          subst hb'
          exact ⟨hhead b rfl, hbgt⟩)

/-- C3: when the pool's finalizable chain `[B_0, …, B_k]` is non-empty,
`tryFinalize` appends to the finalized chain exactly the blocks among
`B_0, …, B_{k-1}` whose number exceeds the current last finalized number, in
order, promoting each appended block's pool state version via
`cloneAndFinalizeVersion` (the finalized version ends at the last appended
block's version), while the last block `B_k` is not appended and is retained
for a future round. -/
theorem tryFinalize_exact (st : NodeState) (fc : List Block)
    (hne : fc ≠ []) (hlinked : linkedChain fc)
    (hvers : ∀ b ∈ fc.dropLast, lastBlockNumber st.chain < b.number →
        (st.hashToDbVer b.hash).isSome)
    (hhead : ∀ b, ((fc.dropLast).filter
        (fun x => decide (lastBlockNumber st.chain < x.number))).head? = some b →
        addNewBlockToChain st.chain b = some (st.chain ++ [b])) :
    tryFinalize st fc
      = some
        ({ chain := st.chain
             ++ (fc.dropLast).filter
                  (fun x => decide (lastBlockNumber st.chain < x.number)),
           hashToDbVer := st.hashToDbVer,
           finalVersion :=
             match ((fc.dropLast).filter
                 (fun x => decide (lastBlockNumber st.chain < x.number))).getLast? with
             | none => st.finalVersion
             | some b => st.hashToDbVer b.hash },
         ((fc.dropLast).filter
             (fun x => decide (lastBlockNumber st.chain < x.number))).map
           (fun b => (b.number, (st.hashToDbVer b.hash).getD 0)))
    ∧ ∀ bk, fc.getLast? = some bk →
        bk ∉ (fc.dropLast).filter
          (fun x => decide (lastBlockNumber st.chain < x.number)) := by
  constructor
  · unfold tryFinalize
    rw [if_neg (by simpa using hne)]
    have hdl : fc.dropLast <+: fc := ⟨[fc.getLast hne], List.dropLast_append_getLast hne⟩
    exact tryFinalizeLoop_filter fc.dropLast st
      ( List.Chain'.prefix hlinked hdl) hvers hhead
  · intro bk hbk hmem
    have hbk' : bk = fc.getLast hne := by
      rw [List.getLast?_eq_getLast fc hne, Option.some_inj] at hbk
      exact hbk.symm
    have hsplit : fc.dropLast ++ [fc.getLast hne] = fc :=
      List.dropLast_append_getLast hne
    have hpw := linkedChain_numbers_lt fc hlinked
    rw [← hsplit] at hpw
    have hlt := (List.pairwise_append.mp hpw).2.2
    have hmem' : bk ∈ fc.dropLast := List.mem_of_mem_filter hmem
    have := hlt bk hmem' (fc.getLast hne) (List.mem_singleton_self _)
    rw [hbk'] at this
    omega

/-- C3 witness: a three-block finalizable chain over a genesis-only chain —
the first two blocks are appended with their versions promoted, the third is
retained. -/
theorem tryFinalize_exact_witness :
    tryFinalize
      { chain := [{ number := 0, epoch := 0, hash := ['g'], last_hash := [],
                    last_votes_hash := [], proposer := [], validators := [] }],
        hashToDbVer := fun h =>
          if h = ['b'] then some 7 else if h = ['c'] then some 8 else none,
        finalVersion := some 0 }
      [{ number := 1, epoch := 1, hash := ['b'], last_hash := ['g'],
         last_votes_hash := [], proposer := [], validators := [] },
       { number := 2, epoch := 2, hash := ['c'], last_hash := ['b'],
         last_votes_hash := [], proposer := [], validators := [] },
       { number := 3, epoch := 3, hash := ['d'], last_hash := ['c'],
         last_votes_hash := [], proposer := [], validators := [] }]
      = some
        ({ chain := [{ number := 0, epoch := 0, hash := ['g'], last_hash := [],
                       last_votes_hash := [], proposer := [], validators := [] },
                     { number := 1, epoch := 1, hash := ['b'], last_hash := ['g'],
                       last_votes_hash := [], proposer := [], validators := [] },
                     { number := 2, epoch := 2, hash := ['c'], last_hash := ['b'],
                       last_votes_hash := [], proposer := [], validators := [] }],
           hashToDbVer := fun h =>
             if h = ['b'] then some 7 else if h = ['c'] then some 8 else none,
           finalVersion := some 8 },
         [((1 : Int), (7 : Nat)), ((2 : Int), (8 : Nat))])
    ∧ ({ number := 3, epoch := 3, hash := ['d'], last_hash := ['c'],
         last_votes_hash := [], proposer := [], validators := [] } : Block)
        ∉ ([{ number := 1, epoch := 1, hash := ['b'], last_hash := ['g'],
              last_votes_hash := [], proposer := [], validators := [] },
            { number := 2, epoch := 2, hash := ['c'], last_hash := ['b'],
              last_votes_hash := [], proposer := [], validators := [] },
            { number := 3, epoch := 3, hash := ['d'], last_hash := ['c'],
              last_votes_hash := [], proposer := [],
              validators := [] }] : List Block).dropLast.filter
          (fun x => decide (lastBlockNumber
            [{ number := 0, epoch := 0, hash := ['g'], last_hash := [],
               last_votes_hash := [], proposer := [],
               validators := [] : Block }] < x.number)) := by
  have h := tryFinalize_exact
    { chain := [{ number := 0, epoch := 0, hash := ['g'], last_hash := [],
                  last_votes_hash := [], proposer := [], validators := [] }],
      hashToDbVer := fun h =>
        if h = ['b'] then some 7 else if h = ['c'] then some 8 else none,
      finalVersion := some 0 }
    [{ number := 1, epoch := 1, hash := ['b'], last_hash := ['g'],
       last_votes_hash := [], proposer := [], validators := [] },
     { number := 2, epoch := 2, hash := ['c'], last_hash := ['b'],
       last_votes_hash := [], proposer := [], validators := [] },
     { number := 3, epoch := 3, hash := ['d'], last_hash := ['c'],
       last_votes_hash := [], proposer := [], validators := [] }]
    (by decide)
    (by
      unfold linkedChain
      refine List.chain'_cons.mpr ⟨⟨by decide, by decide⟩, ?_⟩
      exact List.chain'_cons.mpr ⟨⟨by decide, by decide⟩, List.chain'_singleton _⟩)
    (by decide)
    (by intro b hb; cases hb; decide)
  refine ⟨?_, ?_⟩
  · exact h.1.trans (by rfl)
  · exact h.2 _ (by decide)

end Ain
